import Mathlib

/-!
Verification of the SafeSql fragment builders (src/safe_sql.py).

Python strings are embedded as `List Char`; Python values that can appear in a
parameter list are embedded as `PyVal` (integers and strings suffice for all
behaviour the builders distinguish).  Every `_build` method of the source is
translated to a computable Lean function; the fallible constructors are
translated to functions returning `Except PyError _`.
-/

set_option maxRecDepth 10000

/-- Embedding of a Python exception: the source raises `TypeError` and
`ValueError` with a message. -/
inductive PyError : Type where
  | typeError (msg : List Char)
  | valueError (msg : List Char)
deriving DecidableEq, Repr

/-- Embedding of a Python value that can occur in a parameter list or be
handed to a leaf constructor.  `bool` is kept distinct because Python's
`bool` is a subclass of `int`: it passes `isinstance(value, int)` yet
prints as `True`/`False`. -/
inductive PyVal : Type where
  | int (n : Int)
  | bool (b : Bool)
  | str (s : List Char)
deriving DecidableEq, Repr

/-- Python's `isinstance(value, int)`: true for ints and for bools (a
subclass of `int`), false for genuinely non-integer types. -/
def isinstance_int : PyVal → Bool
  | .int _ => true
  | .bool _ => true
  | .str _ => false

/-- `SafeSqlWildcard`: the enum of intentional SQL wildcards. -/
inductive SafeSqlWildcard : Type where
  | PERCENT
  | UNDERSCORE
deriving DecidableEq, Repr

/-- `SafeSqlWildcard.value`: the character of each enum member. -/
def SafeSqlWildcard.value : SafeSqlWildcard → Char
  | .PERCENT => '%'
  | .UNDERSCORE => '_'

/-- One element of a `SafeSqlLikePattern`: `Union[str, SafeSqlWildcard]`. -/
inductive PatPart : Type where
  | str (s : List Char)
  | wildcard (w : SafeSqlWildcard)
deriving DecidableEq, Repr

mutual
/-- The tree of fragments built from the `SafeSqlBuilder` subclasses.
`trusted` embeds a `DeveloperCheckedStr` occurring as an element of a
`SafeSql` composite. -/
inductive Frag : Type where
  | trusted (s : List Char)
  | comp (parts : FragList)
  | intLit (value : PyVal)
  | param (v : PyVal)
  | whitelisted (s : List Char) (wl : List (List Char))
  | pattern (parts : List PatPart)
  | upsert (target_table : List Char) (on_columns : List (List Char))
      (columns : List (List Char)) (rows : List (List PyVal))

/-- The argument sequence of a `SafeSql(...)` composite. -/
inductive FragList : Type where
  | nil
  | cons (f : Frag) (fs : FragList)
end

/-- `SafeSqlBuilder.PYODBC_PARAM_PLACEHOLDER`. -/
def PYODBC_PARAM_PLACEHOLDER : Char := '?'

/-- `SafeSqlBuilder.MSSQL_MAX_PARAMS`. -/
def MSSQL_MAX_PARAMS : Nat := 2100

/-- `SafeSqlLikePattern.ESCAPE_CHAR`. -/
def ESCAPE_CHAR : Char := '['

/-- Python whitespace, as stripped by `str.strip()`. -/
def isPySpace (c : Char) : Bool :=
  c == ' ' || c == '\t' || c == '\n' || c == '\r' || c == '\x0b' || c == '\x0c'

/-- `str.strip()`: remove leading and trailing whitespace. -/
def strip (s : List Char) : List Char :=
  ((s.dropWhile isPySpace).reverse.dropWhile isPySpace).reverse

/-- `safely_concatenate` from `SafeSql._build`: ensure consecutive sql
snippets are separated by one space. -/
def safely_concatenate (left right : List Char) : List Char :=
  if left.isEmpty then strip right else left ++ ' ' :: strip right

/-- `str.join`: `joinSep sep [a, b, c] = a ++ sep ++ b ++ sep ++ c`. -/
def joinSep (sep : List α) : List (List α) → List α
  | [] => []
  | [x] => x
  | x :: y :: xs => x ++ sep ++ joinSep sep (y :: xs)

/-- One step of the character loop in `process_part`: escape the escape
character and both wildcards, keep any other character verbatim. -/
def escStep (acc : List Char × Bool) (ch : Char) : List Char × Bool :=
  if ch = ESCAPE_CHAR ∨ ch = '%' ∨ ch = '_' then
    (acc.1 ++ [ESCAPE_CHAR, ch], true)
  else
    (acc.1 ++ [ch], acc.2)

/-- `process_part` from `SafeSqlLikePattern._build`: the escaped string for
one part, and whether any escapes were executed. -/
def process_part : PatPart → List Char × Bool
  | .str p => p.foldl escStep ([], false)
  | .wildcard w => ([w.value], false)

/-- One step of the part loop in `SafeSqlLikePattern._build`. -/
def likeStep (acc : List Char × Bool) (part : PatPart) : List Char × Bool :=
  (acc.1 ++ (process_part part).1, acc.2 || (process_part part).2)

/-- The fold over all parts in `SafeSqlLikePattern._build`: accumulates the
single bound parameter and the `any_escape_needed` flag. -/
def likeFold (parts : List PatPart) : List Char × Bool :=
  parts.foldl likeStep ([], false)

/-- `SafeSqlLikePattern._build`: placeholder plus optional `ESCAPE` clause,
and the escaped pattern as the single parameter. -/
def SafeSqlLikePattern_build (parts : List PatPart) : List Char × List PyVal :=
  let res := likeFold parts
  let escape_clause_if_needed :=
    if res.2 then " ESCAPE '".data ++ ESCAPE_CHAR :: "'".data else []
  (PYODBC_PARAM_PLACEHOLDER :: escape_clause_if_needed, [PyVal.str res.1])

/-- Decimal digit characters, as produced by Python `str` of an int. -/
def digitChar : Nat → Char
  | 0 => '0' | 1 => '1' | 2 => '2' | 3 => '3' | 4 => '4'
  | 5 => '5' | 6 => '6' | 7 => '7' | 8 => '8' | _ => '9'

/-- Fuel-driven digit expansion of a natural number (most significant digit
first, prepended to `acc`). -/
def natToCharsAux : Nat → Nat → List Char → List Char
  | 0, _, acc => acc
  | fuel + 1, n, acc =>
      if n < 10 then digitChar n :: acc
      else natToCharsAux fuel (n / 10) (digitChar (n % 10) :: acc)

/-- Decimal form of a natural number. -/
def natDecimal (n : Nat) : List Char := natToCharsAux (n + 1) n []

/-- `str(value)` for a Python int: decimal form with optional sign. -/
def intDecimal : Int → List Char
  | .ofNat n => natDecimal n
  | .negSucc m => '-' :: natDecimal (m + 1)

/-- `str(value)` for the values a leaf can store: decimal form for an int,
`True`/`False` for a bool, the string itself for a str. -/
def pyStr : PyVal → List Char
  | .int n => intDecimal n
  | .bool true => "True".data
  | .bool false => "False".data
  | .str s => s

/-- `target.{c} = source.{c}` for a column name `c`. -/
def eqPair (c : List Char) : List Char :=
  "target.".data ++ c ++ " = source.".data ++ c

/-- `value_row` from `SafeSqlUpsertRows._build`. -/
def upsertValueRow (columns : List (List Char)) : List Char :=
  '(' :: (joinSep [','] (List.replicate columns.length ['?']) ++ [')'])

/-- `value_rows` from `SafeSqlUpsertRows._build`. -/
def upsertValueRows (columns : List (List Char)) (rows : List (List PyVal)) :
    List Char :=
  joinSep [','] (List.replicate rows.length (upsertValueRow columns))

/-- `column_list` from `SafeSqlUpsertRows._build`. -/
def upsertColumnList (columns : List (List Char)) : List Char :=
  joinSep [','] columns

/-- `on_condition` from `SafeSqlUpsertRows._build`. -/
def upsertOnCondition (on_columns : List (List Char)) : List Char :=
  joinSep " AND ".data (on_columns.map eqPair)

/-- `update_columns` from `SafeSqlUpsertRows._build`: columns not in
`on_columns`, preserving order. -/
def upsertUpdateColumns (on_columns columns : List (List Char)) :
    List (List Char) :=
  columns.filter (fun c => !(on_columns.contains c))

/-- `update_command` from `SafeSqlUpsertRows._build`. -/
def upsertUpdateCommand (on_columns columns : List (List Char)) : List Char :=
  joinSep ", ".data ((upsertUpdateColumns on_columns columns).map eqPair)

/-- `insert_column_list` from `SafeSqlUpsertRows._build`. -/
def upsertInsertColumnList (columns : List (List Char)) : List Char :=
  joinSep [','] (columns.map (fun c => "source.".data ++ c))

/-- The `MERGE` statement text of `SafeSqlUpsertRows._build` (the f-string
skeleton with its five substitution points). -/
def upsertSql (target_table : List Char) (on_columns columns : List (List Char))
    (rows : List (List PyVal)) : List Char :=
  "\nMERGE INTO ".data ++ target_table
    ++ " WITH (HOLDLOCK) AS target\nUSING (\n    VALUES\n        ".data
    ++ upsertValueRows columns rows
    ++ "\n) AS source (".data ++ upsertColumnList columns
    ++ ")\n    ON ".data ++ upsertOnCondition on_columns
    ++ "\nWHEN MATCHED THEN\n    UPDATE SET \n        ".data
    ++ upsertUpdateCommand on_columns columns
    ++ "\nWHEN NOT MATCHED BY TARGET THEN\n    INSERT (".data
    ++ upsertColumnList columns
    ++ ")\n    VALUES (".data ++ upsertInsertColumnList columns ++ ");\n".data

/-- `SafeSqlUpsertRows._build`: the statement and the rows flattened in
row-major order (`chain.from_iterable`). -/
def SafeSqlUpsertRows_build (target_table : List Char)
    (on_columns columns : List (List Char)) (rows : List (List PyVal)) :
    List Char × List PyVal :=
  (upsertSql target_table on_columns columns rows, rows.flatten)

mutual
/-- `_build` of each `SafeSqlBuilder` subclass (a `DeveloperCheckedStr`
element contributes itself with no parameters). -/
def Frag.build_ : Frag → List Char × List PyVal
  | .trusted s => (s, [])
  | .comp parts => FragList.buildFold ([], []) parts
  | .intLit v => (pyStr v, [])
  | .param v => ([PYODBC_PARAM_PLACEHOLDER], [v])
  | .whitelisted s _ => (s, [])
  | .pattern parts => SafeSqlLikePattern_build parts
  | .upsert t onCols cols rows => SafeSqlUpsertRows_build t onCols cols rows

/-- The fold in `SafeSql._build`: join text with `safely_concatenate` and
append parameters in order. -/
def FragList.buildFold : List Char × List PyVal → FragList → List Char × List PyVal
  | acc, .nil => acc
  | acc, .cons f fs =>
      FragList.buildFold
        (safely_concatenate acc.1 (Frag.build_ f).1, acc.2 ++ (Frag.build_ f).2)
        fs
end

/-- `SafeSqlBuilder.build`: the top-level guard over `_build`. -/
def SafeSqlBuilder_build (f : Frag) : Except PyError (List Char × List PyVal) :=
  let r := f.build_
  if r.2.length > MSSQL_MAX_PARAMS then
    .error (.valueError "SqlServer max. nr. of parameters exceeded".data)
  else
    .ok r

/-- `SafeSqlInt.__init__`: `if not isinstance(value, int): raise TypeError`;
otherwise the value is stored unchanged. -/
def SafeSqlInt_mk (value : PyVal) : Except PyError Frag :=
  if isinstance_int value = false then
    .error (.typeError "value must be int".data)
  else
    .ok (.intLit value)

/-- `SafeSqlWhitelisted.__init__`: the membership check (the isinstance
checks are statically satisfied by the embedding's types; the Python list
repr in the message is elided). -/
def SafeSqlWhitelisted_mk (string : List Char) (whitelist : List (List Char)) :
    Except PyError Frag :=
  if string ∉ whitelist then
    .error (.valueError ("string '".data ++ string ++ "' not in whitelist".data))
  else
    .ok (.whitelisted string whitelist)

/-- `SafeSqlLikePattern.__init__`: at least one part must be provided. -/
def SafeSqlLikePattern_mk (parts : List PatPart) : Except PyError Frag :=
  if parts.isEmpty then
    .error (.typeError "At least one part must be provided".data)
  else
    .ok (.pattern parts)

/-- `SafeSqlUpsertRows.validate_inputs`: the construction-time validation. -/
def SafeSqlUpsertRows_validate (target_table : List Char)
    (on_columns columns : List (List Char)) (rows : List (List PyVal)) :
    Except PyError Frag :=
  if rows.isEmpty then
    .error (.valueError "rows must not be empty".data)
  else
    let row_lengths := (rows.map (fun r => r.length)).dedup
    let row_length := row_lengths.headD 0
    if row_lengths.length ≠ 1 ∨ row_length = 0 then
      .error (.valueError "all rows must have the same non-zero length".data)
    else if row_length ≠ columns.length then
      .error (.valueError "each row must have the same length as columns".data)
    else if on_columns.dedup.length < on_columns.length then
      .error (.valueError "columns should contain no repetitions".data)
    else if columns.dedup.length < columns.length then
      .error (.valueError "columns should contain no repetitions".data)
    else if (on_columns.all (fun c => columns.contains c)) = false then
      .error (.valueError "on_columns must be a subset of columns".data)
    else
      .ok (.upsert target_table on_columns columns rows)

/-- One row-oriented mapping (a Python `dict` in insertion order). -/
abbrev RowDict := List (List Char × PyVal)

/-- `dict.keys()` in insertion order. -/
def dictKeys (d : RowDict) : List (List Char) := d.map (fun kv => kv.1)

/-- `dict.values()` in insertion order. -/
def dictValues (d : RowDict) : List PyVal := d.map (fun kv => kv.2)

/-- `SafeSqlUpsertRows.from_row_dicts`: columns from the first mapping's
keys, each row as that mapping's own values. -/
def SafeSqlUpsertRows_from_row_dicts (target_table : List Char)
    (on_columns : List (List Char)) (row_dicts : List RowDict) :
    Except PyError Frag :=
  let columns := match row_dicts with
    | [] => []
    | rd :: _ => dictKeys rd
  let rows := row_dicts.map dictValues
  SafeSqlUpsertRows_validate target_table on_columns columns rows

/-- `Except.isOk` as a plain boolean projection. -/
def exceptOk : Except ε α → Bool
  | .ok _ => true
  | .error _ => false

mutual
/-- The conjunction of all construction-time checks along a fragment tree:
exactly the trees that the public constructors accept. -/
def Frag.valid : Frag → Bool
  | .trusted _ => true
  | .comp parts => parts.validAll
  | .intLit v => isinstance_int v
  | .param _ => true
  | .whitelisted s wl => wl.contains s
  | .pattern parts => !parts.isEmpty
  | .upsert t onCols cols rows =>
      exceptOk (SafeSqlUpsertRows_validate t onCols cols rows)

/-- `Frag.valid` over every element of a composite. -/
def FragList.validAll : FragList → Bool
  | .nil => true
  | .cons f fs => f.valid && fs.validAll
end

/-!
## Chunk streams

To state that the i-th placeholder of a rendered template corresponds to the
i-th parameter, we render a fragment to a stream of chunks: a `ch` chunk is a
literal template character, a `hole` chunk is a bound value standing at the
position of its placeholder.  Projecting every `hole` to `'?'` must recover
the template, and collecting the `hole` values in order must recover the
parameter list.
-/

/-- One chunk of a rendered template: a literal character or a bound value
standing at its placeholder position. -/
inductive Chunk : Type where
  | ch (c : Char)
  | hole (v : PyVal)
deriving DecidableEq, Repr

/-- The template character of a chunk. -/
def projChunk : Chunk → Char
  | .ch c => c
  | .hole _ => PYODBC_PARAM_PLACEHOLDER

/-- The template text of a chunk stream. -/
def proj (l : List Chunk) : List Char := l.map projChunk

/-- The bound values of a chunk stream, in order. -/
def holes (l : List Chunk) : List PyVal :=
  l.filterMap (fun x => match x with | .hole v => some v | .ch _ => none)

/-- Whitespace test on chunks: a bound value is never whitespace. -/
def chunkSpace : Chunk → Bool
  | .ch c => isPySpace c
  | .hole _ => false

/-- `strip` lifted to chunk streams. -/
def stripChunks (l : List Chunk) : List Chunk :=
  ((l.dropWhile chunkSpace).reverse.dropWhile chunkSpace).reverse

/-- `safely_concatenate` lifted to chunk streams. -/
def chunkConcat (left right : List Chunk) : List Chunk :=
  if left.isEmpty then stripChunks right else left ++ Chunk.ch ' ' :: stripChunks right

/-- Chunk stream of one `VALUES` tuple, holding the row's values at the
placeholder positions. -/
def rowChunks (row : List PyVal) : List Chunk :=
  Chunk.ch '(' ::
    (joinSep [Chunk.ch ','] (row.map (fun v => [Chunk.hole v])) ++ [Chunk.ch ')'])

/-- Chunk stream of the whole `VALUES` list. -/
def valueRowsChunks (rows : List (List PyVal)) : List Chunk :=
  joinSep [Chunk.ch ','] (rows.map rowChunks)

/-- Chunk stream of a rendered `SafeSqlUpsertRows`. -/
def upsertChunks (target_table : List Char) (on_columns columns : List (List Char))
    (rows : List (List PyVal)) : List Chunk :=
  (("\nMERGE INTO ".data ++ target_table
      ++ " WITH (HOLDLOCK) AS target\nUSING (\n    VALUES\n        ".data).map Chunk.ch)
    ++ valueRowsChunks rows
    ++ (("\n) AS source (".data ++ upsertColumnList columns
        ++ ")\n    ON ".data ++ upsertOnCondition on_columns
        ++ "\nWHEN MATCHED THEN\n    UPDATE SET \n        ".data
        ++ upsertUpdateCommand on_columns columns
        ++ "\nWHEN NOT MATCHED BY TARGET THEN\n    INSERT (".data
        ++ upsertColumnList columns
        ++ ")\n    VALUES (".data ++ upsertInsertColumnList columns
        ++ ");\n".data).map Chunk.ch)

/-- Chunk stream of a rendered `SafeSqlLikePattern`. -/
def likeChunks (parts : List PatPart) : List Chunk :=
  Chunk.hole (PyVal.str (likeFold parts).1) ::
    ((if (likeFold parts).2 then " ESCAPE '".data ++ ESCAPE_CHAR :: "'".data else []).map
      Chunk.ch)

mutual
/-- Chunk stream of a rendered fragment (mirrors `Frag.build_`). -/
def Frag.chunks : Frag → List Chunk
  | .trusted s => s.map Chunk.ch
  | .comp parts => FragList.chunksFold [] parts
  | .intLit v => (pyStr v).map Chunk.ch
  | .param v => [Chunk.hole v]
  | .whitelisted s _ => s.map Chunk.ch
  | .pattern parts => likeChunks parts
  | .upsert t onCols cols rows => upsertChunks t onCols cols rows

/-- The composite fold at chunk level. -/
def FragList.chunksFold : List Chunk → FragList → List Chunk
  | acc, .nil => acc
  | acc, .cons f fs => FragList.chunksFold (chunkConcat acc f.chunks) fs
end

/-- `true` iff the string has no occurrence of the placeholder token. -/
def noQs (s : List Char) : Bool := s.all (fun c => !(c == '?'))

mutual
/-- `true` iff no developer-supplied raw text in the tree (trusted text,
whitelisted string, upsert table or column name) contains the placeholder
token `?`. -/
def Frag.noQ : Frag → Bool
  | .trusted s => noQs s
  | .comp parts => parts.noQAll
  | .intLit _ => true
  | .param _ => true
  | .whitelisted s _ => noQs s
  | .pattern _ => true
  | .upsert t onCols cols _ =>
      noQs t && onCols.all noQs && cols.all noQs

/-- `Frag.noQ` over every element of a composite. -/
def FragList.noQAll : FragList → Bool
  | .nil => true
  | .cons f fs => f.noQ && fs.noQAll
end

/-- The elements of a composite as a plain list. -/
def FragList.toList : FragList → List Frag
  | .nil => []
  | .cons f fs => f :: fs.toList

/-!
## Spec-side definitions

These definitions follow the words of the specification (not the source) and
are compared with the source-translated definitions above.
-/

/-- Spec-side contribution of one character of a plain-string pattern
element: a wildcard-significant character is prefixed by the escape
character, any other character is kept verbatim. -/
def escSpec (c : Char) : List Char :=
  if c = ESCAPE_CHAR ∨ c = '%' ∨ c = '_' then [ESCAPE_CHAR, c] else [c]

/-- Spec-side contribution of one pattern element to the bound parameter:
string elements are escaped character by character, wildcard tokens
contribute their literal character unescaped. -/
def partContribSpec : PatPart → List Char
  | .str s => (s.map escSpec).flatten
  | .wildcard w => [w.value]

/-- Spec-side test: does this pattern element cause any escaping? -/
def partEscapesB : PatPart → Bool
  | .str s => s.any (fun c => c == ESCAPE_CHAR || c == '%' || c == '_')
  | .wildcard _ => false

/-- Spec-side description of the composite join: drop the elements whose
stripped text is empty that precede the first non-empty contribution, then
prepend exactly one space to every later (already stripped) contribution. -/
def specJoin (ts : List (List Char)) : List Char :=
  match ts.dropWhile List.isEmpty with
  | [] => []
  | t :: rest => t ++ (rest.map (fun r => ' ' :: r)).flatten

/-- Value of a digit string (most significant digit first). -/
def digitsVal (l : List Char) : Nat :=
  l.foldl (fun a c => 10 * a + (c.toNat - 48)) 0

/-- Value of a rendered integer literal, sign included. -/
def intCharsVal (l : List Char) : Int :=
  match l with
  | '-' :: rest => -(digitsVal rest : Int)
  | _ => (digitsVal l : Int)

/-- Decimal digits of a natural number by well-founded recursion (the
mathematical reference for `natDecimal`). -/
def natDigitsWF (n : Nat) : List Char :=
  if h : n < 10 then [digitChar n]
  else natDigitsWF (n / 10) ++ [digitChar (n % 10)]
decreasing_by exact Nat.div_lt_self (Nat.lt_of_lt_of_le (by decide) (Nat.le_of_not_lt h)) (by decide)

/-- `dict[c]`: the value stored under key `c` (dicts in this development
always contain their looked-up keys; the default is immaterial). -/
def dictLookup (c : List Char) (d : RowDict) : PyVal :=
  match d.find? (fun kv => kv.1 == c) with
  | some kv => kv.2
  | none => PyVal.int 0

/-- The claim's description of `from_row_dicts`: the column list comes from
the first mapping's keys in insertion order, and each row is extracted as
that mapping's values in that same column order. -/
def claimFromRowDicts (target_table : List Char) (on_columns : List (List Char))
    (row_dicts : List RowDict) : Except PyError Frag :=
  let columns := match row_dicts with
    | [] => []
    | rd :: _ => dictKeys rd
  let rows := row_dicts.map (fun rd => columns.map (fun c => dictLookup c rd))
  SafeSqlUpsertRows_validate target_table on_columns columns rows

/-!
## Concrete instances (from the repository's test suite)
-/

/-- The composite of `test_safe_sql_combine_snippets`. -/
def exampleTree : Frag :=
  .comp (.cons (.trusted "SELECT TOP ".data)
    (.cons (.intLit (.int 1))
      (.cons (.trusted "*".data)
        (.cons (.trusted "FROM".data)
          (.cons (.whitelisted "users".data ["admins".data, "users".data])
            (.cons (.comp (.cons (.trusted "WHERE user_id >".data)
                      (.cons (.param (.int 42)) .nil)))
              (.cons (.trusted "AND name LIKE".data)
                (.cons (.pattern [.str "Stefan".data, .wildcard .PERCENT]) .nil))))))))

/-- Columns of `test_safe_sql_upsert_rows_build`. -/
def exUpsertColumns : List (List Char) :=
  ["id1".data, "id2".data, "v1".data, "v2".data]

/-- Key columns of `test_safe_sql_upsert_rows_build`. -/
def exUpsertOnColumns : List (List Char) := ["id1".data, "id2".data]

/-- Rows of `test_safe_sql_upsert_rows_build`. -/
def exUpsertRows : List (List PyVal) :=
  [[.int 1, .int 10, .str "a1".data, .str "a2".data],
   [.int 2, .int 20, .str "b1".data, .str "b2".data]]

/-- A composite whose single sub-fragment renders 2101 parameters. -/
def overLimitFrag : Frag :=
  .comp (.cons (.upsert "t".data [] ["c".data] (List.replicate 2101 [PyVal.int 0])) .nil)

/-- A composite whose single sub-fragment renders exactly 2100 parameters. -/
def atLimitFrag : Frag :=
  .comp (.cons (.upsert "t".data [] ["c".data] (List.replicate 2100 [PyVal.int 0])) .nil)

/-- A row mapping with keys `a`, `b` in that insertion order. -/
def c8Dict1 : RowDict := [("a".data, .int 1), ("b".data, .int 2)]

/-- A row mapping with the same key set but insertion order `b`, `a`. -/
def c8Dict2 : RowDict := [("b".data, .int 3), ("a".data, .int 4)]

/-- Render the payload of a successful construction (a failed construction
renders nothing; the default is immaterial). -/
def buildOfExcept (e : Except PyError Frag) : List Char × List PyVal :=
  match e with
  | .ok f => f.build_
  | .error _ => ([], [])

/-!
## Generic helper lemmas
-/

theorem joinSep_hom (g : List α → List β) (hnil : g [] = [])
    (happ : ∀ a b, g (a ++ b) = g a ++ g b) (sep : List α) :
    ∀ xs, g (joinSep sep xs) = joinSep (g sep) (xs.map g)
  | [] => hnil
  | [x] => rfl
  | x :: y :: xs => by
      simp only [joinSep, happ, List.map_cons]
      rw [joinSep_hom g hnil happ sep (y :: xs)]
      rfl

theorem count_joinSep [BEq α] (a : α) (sep : List α) (h : sep.count a = 0) :
    ∀ xs : List (List α),
      (joinSep sep xs).count a = (xs.map (fun x => x.count a)).sum
  | [] => rfl
  | [x] => by simp [joinSep]
  | x :: y :: xs => by
      simp only [joinSep, List.count_append, h, List.map_cons, List.sum_cons]
      rw [count_joinSep a sep h (y :: xs)]
      simp [joinSep]

theorem mem_joinSep {a : α} {sep : List α} :
    ∀ {xs : List (List α)}, a ∈ joinSep sep xs → a ∈ sep ∨ ∃ x ∈ xs, a ∈ x
  | [], h => absurd h (List.not_mem_nil a)
  | [x], h => Or.inr ⟨x, List.mem_cons_self x [], h⟩
  | x :: y :: xs, h => by
      simp only [joinSep, List.mem_append] at h
      rcases h with (h | h) | h
      · exact Or.inr ⟨x, List.mem_cons_self x _, h⟩
      · exact Or.inl h
      · rcases mem_joinSep h with h | ⟨z, hz, ha⟩
        · exact Or.inl h
        · exact Or.inr ⟨z, List.mem_cons_of_mem x hz, ha⟩

theorem noQs_count {s : List Char} (h : noQs s = true) : s.count '?' = 0 := by
  rw [List.count_eq_zero]
  intro hmem
  have := (List.all_eq_true.mp h) '?' hmem
  simp at this

theorem noQs_not_mem {s : List Char} (h : noQs s = true) : '?' ∉ s := by
  intro hmem
  have := (List.all_eq_true.mp h) '?' hmem
  simp at this

/-!
## Chunk stream lemmas
-/

theorem proj_append (a b : List Chunk) : proj (a ++ b) = proj a ++ proj b :=
  List.map_append projChunk a b

theorem holes_append (a b : List Chunk) : holes (a ++ b) = holes a ++ holes b :=
  List.filterMap_append a b _

theorem proj_map_ch (s : List Char) : proj (s.map Chunk.ch) = s := by
  simp only [proj, List.map_map]
  have : projChunk ∘ Chunk.ch = id := funext (fun c => rfl)
  rw [this, List.map_id]

theorem holes_map_ch (s : List Char) : holes (s.map Chunk.ch) = [] := by
  simp [holes, List.filterMap_map, Function.comp]

theorem chunkSpace_proj (x : Chunk) : isPySpace (projChunk x) = chunkSpace x := by
  cases x with
  | ch c => rfl
  | hole v => rfl

theorem proj_isEmpty (a : List Chunk) : (proj a).isEmpty = a.isEmpty := by
  cases a <;> rfl

theorem dropWhile_proj (l : List Chunk) :
    (proj l).dropWhile isPySpace = proj (l.dropWhile chunkSpace) := by
  have hfun : isPySpace ∘ projChunk = chunkSpace := funext chunkSpace_proj
  simp only [proj, List.dropWhile_map, hfun]

theorem reverse_proj (l : List Chunk) : (proj l).reverse = proj l.reverse := by
  simp [proj]

theorem proj_stripChunks (l : List Chunk) : proj (stripChunks l) = strip (proj l) := by
  rw [strip, dropWhile_proj, reverse_proj, dropWhile_proj, reverse_proj, stripChunks]

theorem holes_dropWhile (l : List Chunk) :
    holes (l.dropWhile chunkSpace) = holes l := by
  induction l with
  | nil => rfl
  | cons x xs ih =>
      cases x with
      | hole v => simp [List.dropWhile_cons, chunkSpace]
      | ch c =>
          by_cases h : isPySpace c = true
          · simpa [List.dropWhile_cons, chunkSpace, h, holes] using ih
          · simp [List.dropWhile_cons, chunkSpace, h]

theorem holes_reverse (l : List Chunk) : holes l.reverse = (holes l).reverse :=
  List.filterMap_reverse _ l

theorem holes_stripChunks (l : List Chunk) : holes (stripChunks l) = holes l := by
  rw [stripChunks, holes_reverse, holes_dropWhile, holes_reverse, List.reverse_reverse,
    holes_dropWhile]

theorem holes_cons_ch (c : Char) (l : List Chunk) :
    holes (Chunk.ch c :: l) = holes l := by
  simp [holes]

theorem holes_cons_hole (v : PyVal) (l : List Chunk) :
    holes (Chunk.hole v :: l) = v :: holes l := by
  simp [holes]

theorem holes_nil : holes [] = [] := rfl

theorem holes_chunkConcat (a b : List Chunk) :
    holes (chunkConcat a b) = holes a ++ holes b := by
  unfold chunkConcat
  by_cases h : a.isEmpty
  · have ha : a = [] := by
      cases a with
      | nil => rfl
      | cons x xs => simp at h
    rw [if_pos h, ha, holes_stripChunks, holes_nil, List.nil_append]
  · rw [if_neg h, holes_append, holes_cons_ch, holes_stripChunks]

theorem proj_chunkConcat (a b : List Chunk) :
    proj (chunkConcat a b) = safely_concatenate (proj a) (proj b) := by
  unfold chunkConcat safely_concatenate
  by_cases h : a.isEmpty
  · rw [if_pos h, if_pos (by rw [proj_isEmpty]; exact h), proj_stripChunks]
  · rw [if_neg h, if_neg (by rw [proj_isEmpty]; exact h), proj_append]
    rw [show proj (Chunk.ch ' ' :: stripChunks b) = ' ' :: proj (stripChunks b) from rfl,
      proj_stripChunks]

theorem map_fixed (b : β) : ∀ l : List α, l.map (fun _ => b) = List.replicate l.length b
  | [] => rfl
  | x :: xs => by simp [List.replicate_succ, map_fixed b xs]

theorem joinSep_nil_flatten : ∀ xs : List (List α), joinSep [] xs = xs.flatten
  | [] => rfl
  | [x] => by simp [joinSep]
  | x :: y :: xs => by simp [joinSep, joinSep_nil_flatten (y :: xs)]

theorem flatten_singletons : ∀ l : List α, (l.map (fun a => [a])).flatten = l
  | [] => rfl
  | x :: xs => by simp [flatten_singletons xs]

theorem proj_likeChunks (parts : List PatPart) :
    proj (likeChunks parts) = (SafeSqlLikePattern_build parts).1 := by
  unfold likeChunks SafeSqlLikePattern_build
  by_cases h : (likeFold parts).2 = true <;>
    simp [h, proj, proj_map_ch, projChunk]

theorem holes_likeChunks (parts : List PatPart) :
    holes (likeChunks parts) = (SafeSqlLikePattern_build parts).2 := by
  unfold likeChunks SafeSqlLikePattern_build
  by_cases h : (likeFold parts).2 = true <;>
    simp [h, holes, List.filterMap_map, Function.comp]

theorem proj_rowChunks {row : List PyVal} {cols : List (List Char)}
    (h : row.length = cols.length) : proj (rowChunks row) = upsertValueRow cols := by
  unfold rowChunks upsertValueRow
  rw [show ∀ x : Chunk, ∀ l, proj (x :: l) = projChunk x :: proj l from fun _ _ => rfl,
    proj_append, joinSep_hom proj rfl proj_append, List.map_map]
  rw [show (proj ∘ fun v => [Chunk.hole v]) = fun _ => ['?'] from funext (fun _ => rfl),
    map_fixed, h]
  rfl

theorem proj_valueRowsChunks {rows : List (List PyVal)} {cols : List (List Char)}
    (h : ∀ r ∈ rows, r.length = cols.length) :
    proj (valueRowsChunks rows) = upsertValueRows cols rows := by
  unfold valueRowsChunks upsertValueRows
  rw [joinSep_hom proj rfl proj_append, List.map_map]
  congr 1
  apply List.eq_replicate_iff.mpr
  constructor
  · simp
  · intro b hb
    rcases List.mem_map.mp hb with ⟨r, hr, rfl⟩
    exact proj_rowChunks (h r hr)

theorem holes_rowChunks (row : List PyVal) : holes (rowChunks row) = row := by
  unfold rowChunks
  rw [holes_cons_ch, holes_append, joinSep_hom holes holes_nil holes_append,
    List.map_map]
  rw [show (holes ∘ fun v => [Chunk.hole v]) = fun v => [v] from funext (fun _ => rfl)]
  rw [show holes [Chunk.ch ','] = [] from rfl, joinSep_nil_flatten, flatten_singletons]
  simp [holes]

theorem holes_valueRowsChunks (rows : List (List PyVal)) :
    holes (valueRowsChunks rows) = rows.flatten := by
  unfold valueRowsChunks
  rw [joinSep_hom holes holes_nil holes_append, List.map_map]
  rw [show holes [Chunk.ch ','] = [] from rfl, joinSep_nil_flatten]
  congr 1
  exact List.map_congr_left (fun r _ => holes_rowChunks r) |>.trans (List.map_id _)

theorem proj_upsertChunks {t : List Char} {onCols cols : List (List Char)}
    {rows : List (List PyVal)} (h : ∀ r ∈ rows, r.length = cols.length) :
    proj (upsertChunks t onCols cols rows) = upsertSql t onCols cols rows := by
  unfold upsertChunks upsertSql
  simp only [proj_append, proj_map_ch, proj_valueRowsChunks h, List.append_assoc]

theorem holes_upsertChunks (t : List Char) (onCols cols : List (List Char))
    (rows : List (List PyVal)) :
    holes (upsertChunks t onCols cols rows) = rows.flatten := by
  unfold upsertChunks
  simp only [holes_append, holes_map_ch, holes_valueRowsChunks,
    List.append_nil, List.nil_append]

theorem dedup_length_one_all_eq [DecidableEq α] (d : α) {l : List α}
    (h : l.dedup.length = 1) : ∀ x ∈ l, x = l.dedup.headD d := by
  intro x hx
  have hxd : x ∈ l.dedup := List.mem_dedup.mpr hx
  match hl : l.dedup with
  | [] => rw [hl] at hxd; exact absurd hxd (List.not_mem_nil x)
  | [a] => rw [hl] at hxd; simpa [hl] using hxd
  | a :: b :: rest => rw [hl] at h; simp at h

theorem upsert_valid_row_lengths {t : List Char} {onCols cols : List (List Char)}
    {rows : List (List PyVal)}
    (h : exceptOk (SafeSqlUpsertRows_validate t onCols cols rows) = true) :
    ∀ r ∈ rows, r.length = cols.length := by
  intro r hr
  simp only [SafeSqlUpsertRows_validate] at h
  split at h
  · simp [exceptOk] at h
  · split at h
    · simp [exceptOk] at h
    · split at h
      · simp [exceptOk] at h
      · rename_i h1 h2 h3
        push_neg at h2 h3
        have := dedup_length_one_all_eq 0 h2.1 r.length
          (List.mem_map.mpr ⟨r, hr, rfl⟩)
        rw [this, h3]

mutual
/-- `Frag.build_` is the projection of the chunk stream: the template is the
stream with every bound value printed as the placeholder, the parameter list
is the in-order list of bound values. -/
theorem Frag.build_eq_chunks : ∀ f : Frag, f.valid = true →
    f.build_ = (proj f.chunks, holes f.chunks)
  | .trusted s, _ => by
      simp [Frag.build_, Frag.chunks, proj_map_ch, holes_map_ch]
  | .comp parts, h => by
      rw [Frag.build_, Frag.chunks,
        show (([], []) : List Char × List PyVal) = (proj [], holes []) from rfl]
      exact FragList.buildFold_eq_chunks parts [] (by simpa [Frag.valid] using h)
  | .intLit n, _ => by
      simp [Frag.build_, Frag.chunks, proj_map_ch, holes_map_ch]
  | .param v, _ => by
      simp [Frag.build_, Frag.chunks, proj, holes, projChunk]
  | .whitelisted s wl, _ => by
      simp [Frag.build_, Frag.chunks, proj_map_ch, holes_map_ch]
  | .pattern parts, _ => by
      rw [Frag.build_, Frag.chunks, proj_likeChunks, holes_likeChunks]
  | .upsert t onCols cols rows, h => by
      have hrows : ∀ r ∈ rows, r.length = cols.length := by
        have hv : exceptOk (SafeSqlUpsertRows_validate t onCols cols rows) = true := by
          simpa [Frag.valid] using h
        exact upsert_valid_row_lengths hv
      rw [Frag.build_, Frag.chunks, SafeSqlUpsertRows_build,
        proj_upsertChunks hrows, holes_upsertChunks]

/-- The composite fold agrees with its chunk-level counterpart. -/
theorem FragList.buildFold_eq_chunks : ∀ (fs : FragList) (acc : List Chunk),
    fs.validAll = true →
    FragList.buildFold (proj acc, holes acc) fs =
      (proj (FragList.chunksFold acc fs), holes (FragList.chunksFold acc fs))
  | .nil, acc, _ => rfl
  | .cons f fs, acc, h => by
      have hf : f.valid = true := by
        have := h
        simp [FragList.validAll, Bool.and_eq_true] at this
        exact this.1
      have hfs : fs.validAll = true := by
        have := h
        simp [FragList.validAll, Bool.and_eq_true] at this
        exact this.2
      rw [FragList.buildFold, FragList.chunksFold, Frag.build_eq_chunks f hf]
      rw [show (safely_concatenate (proj acc) (proj f.chunks),
            holes acc ++ holes f.chunks) =
          (proj (chunkConcat acc f.chunks), holes (chunkConcat acc f.chunks)) by
        rw [proj_chunkConcat, holes_chunkConcat]]
      exact FragList.buildFold_eq_chunks fs (chunkConcat acc f.chunks) hfs
end

theorem dedup_replicate [DecidableEq α] (a : α) :
    ∀ n : Nat, 0 < n → (List.replicate n a).dedup = [a]
  | 1, _ => by simp
  | n + 2, _ => by
      rw [List.replicate_succ, List.dedup_cons_of_mem
        (List.mem_replicate.mpr ⟨Nat.succ_ne_zero _, rfl⟩)]
      exact dedup_replicate a (n + 1) (Nat.succ_pos _)

theorem rows_map_length_replicate {rows : List (List PyVal)} {n : Nat}
    (h : ∀ r ∈ rows, r.length = n) :
    rows.map (fun r => r.length) = List.replicate rows.length n := by
  apply List.eq_replicate_iff.mpr
  refine ⟨by simp, ?_⟩
  intro b hb
  rcases List.mem_map.mp hb with ⟨r, hr, rfl⟩
  exact h r hr

/-- `SafeSqlUpsertRows.validate_inputs` succeeds on exactly the documented
conditions (sufficiency direction). -/
theorem validate_ok_of {t : List Char} {onCols cols : List (List Char)}
    {rows : List (List PyVal)} (h1 : rows ≠ [])
    (h2 : ∀ r ∈ rows, r.length = cols.length) (h3 : cols ≠ [])
    (h4 : onCols.Nodup) (h5 : cols.Nodup) (h6 : ∀ c ∈ onCols, c ∈ cols) :
    SafeSqlUpsertRows_validate t onCols cols rows =
      .ok (.upsert t onCols cols rows) := by
  have hded : (rows.map (fun r => r.length)).dedup = [cols.length] := by
    rw [rows_map_length_replicate h2]
    exact dedup_replicate _ _ (List.length_pos.mpr h1)
  have hcl : cols.length ≠ 0 := fun hc => h3 (List.length_eq_zero.mp hc)
  simp only [SafeSqlUpsertRows_validate]
  rw [if_neg (by simp [h1]), if_neg (by rw [hded]; simp [hcl]),
    if_neg (by rw [hded]; simp),
    if_neg (by rw [List.dedup_eq_self.mpr h4]; exact Nat.lt_irrefl _),
    if_neg (by rw [List.dedup_eq_self.mpr h5]; exact Nat.lt_irrefl _),
    if_neg (by simp; exact h6)]

/-- When the key columns contain every column, no update column remains. -/
theorem updateColumns_nil {onCols cols : List (List Char)}
    (h : ∀ c ∈ cols, c ∈ onCols) : upsertUpdateColumns onCols cols = [] := by
  unfold upsertUpdateColumns
  rw [List.filter_eq_nil_iff]
  intro c hc
  simp [List.contains, h c hc]

theorem updateColumns_mem_iff {onCols cols : List (List Char)} {c : List Char} :
    c ∈ upsertUpdateColumns onCols cols ↔ c ∈ cols ∧ c ∉ onCols := by
  unfold upsertUpdateColumns
  rw [List.mem_filter]
  simp [List.contains]

theorem updateColumns_sublist (onCols cols : List (List Char)) :
    (upsertUpdateColumns onCols cols).Sublist cols :=
  List.filter_sublist cols

theorem updateColumns_length {onCols cols : List (List Char)}
    (h4 : onCols.Nodup) (h5 : cols.Nodup) (h6 : ∀ c ∈ onCols, c ∈ cols) :
    (upsertUpdateColumns onCols cols).length = cols.length - onCols.length := by
  have hsplit := List.length_eq_length_filter_add (l := cols)
    (fun c => onCols.contains c)
  have hkey : (cols.filter (fun c => onCols.contains c)).length = onCols.length := by
    have hperm : (cols.filter (fun c => onCols.contains c)).Perm onCols := by
      apply (List.perm_ext_iff_of_nodup (h5.filter _) h4).mpr
      intro a
      rw [List.mem_filter]
      constructor
      · intro ⟨_, ha⟩
        simpa [List.contains] using ha
      · intro ha
        exact ⟨h6 a ha, by simpa [List.contains] using ha⟩
    exact hperm.length_eq
  unfold upsertUpdateColumns
  omega

/-!
## Composite join lemmas
-/

theorem buildFold_split : ∀ (fs : FragList) (acc : List Char × List PyVal),
    FragList.buildFold acc fs =
      (List.foldl safely_concatenate acc.1 (fs.toList.map (fun p => (p.build_).1)),
       acc.2 ++ (fs.toList.map (fun p => (p.build_).2)).flatten)
  | .nil, acc => by simp [FragList.buildFold, FragList.toList]
  | .cons f fs, acc => by
      rw [FragList.buildFold, buildFold_split fs]
      simp [FragList.toList, List.append_assoc]

theorem safely_concatenate_of_ne_nil {acc : List Char} (h : acc ≠ []) (r : List Char) :
    safely_concatenate acc r = acc ++ ' ' :: strip r := by
  unfold safely_concatenate
  rw [if_neg (by simpa using h)]

theorem foldl_safely_ne_nil {acc : List Char} (h : acc ≠ []) :
    ∀ rs : List (List Char),
      List.foldl safely_concatenate acc rs =
        acc ++ (rs.map (fun r => ' ' :: strip r)).flatten
  | [] => by simp
  | r :: rs => by
      rw [List.foldl_cons, safely_concatenate_of_ne_nil h,
        foldl_safely_ne_nil (by simp) rs]
      simp [List.append_assoc]

theorem specJoin_cons_nil (ts : List (List Char)) :
    specJoin ([] :: ts) = specJoin ts := by
  unfold specJoin
  rw [List.dropWhile_cons]
  simp

theorem specJoin_cons_ne_nil {t : List Char} (h : t ≠ []) (ts : List (List Char)) :
    specJoin (t :: ts) = t ++ (ts.map (fun r => ' ' :: r)).flatten := by
  unfold specJoin
  rw [List.dropWhile_cons, if_neg (by simpa using h)]

theorem foldl_safely_nil : ∀ rs : List (List Char),
    List.foldl safely_concatenate [] rs = specJoin (rs.map strip)
  | [] => rfl
  | r :: rs => by
      rw [List.foldl_cons, show safely_concatenate [] r = strip r from rfl]
      by_cases h : strip r = []
      · rw [h, foldl_safely_nil rs, List.map_cons, h, specJoin_cons_nil]
      · rw [foldl_safely_ne_nil h rs, List.map_cons, specJoin_cons_ne_nil h,
          List.map_map]
        rfl

/-!
## Pattern escaping lemmas
-/

theorem isWild_iff (c : Char) :
    (c == ESCAPE_CHAR || c == '%' || c == '_') = true ↔
      (c = ESCAPE_CHAR ∨ c = '%' ∨ c = '_') := by
  simp [Bool.or_eq_true, or_assoc]

theorem escStep_foldl : ∀ (s : List Char) (a : List Char) (b : Bool),
    s.foldl escStep (a, b) =
      (a ++ (s.map escSpec).flatten,
       b || s.any (fun c => c == ESCAPE_CHAR || c == '%' || c == '_'))
  | [], a, b => by simp
  | c :: cs, a, b => by
      rw [List.foldl_cons]
      by_cases h : c = ESCAPE_CHAR ∨ c = '%' ∨ c = '_'
      · rw [show escStep (a, b) c = (a ++ [ESCAPE_CHAR, c], true) from by
          simp [escStep, h]]
        rw [escStep_foldl cs]
        have hb : (c == ESCAPE_CHAR || c == '%' || c == '_') = true :=
          (isWild_iff c).mpr h
        simp [escSpec, h, hb, List.append_assoc]
      · rw [show escStep (a, b) c = (a ++ [c], b) from by simp [escStep, h]]
        rw [escStep_foldl cs]
        have hb : (c == ESCAPE_CHAR || c == '%' || c == '_') = false := by
          rw [Bool.eq_false_iff]
          intro hc
          exact h ((isWild_iff c).mp hc)
        simp [escSpec, h, hb, List.append_assoc]

theorem process_part_str (s : List Char) :
    process_part (.str s) =
      ((s.map escSpec).flatten, partEscapesB (.str s)) := by
  show s.foldl escStep ([], false) = _
  rw [escStep_foldl]
  simp [partEscapesB]

theorem process_part_fst (p : PatPart) : (process_part p).1 = partContribSpec p := by
  cases p with
  | str s => rw [process_part_str]; rfl
  | wildcard w => rfl

theorem process_part_snd (p : PatPart) : (process_part p).2 = partEscapesB p := by
  cases p with
  | str s => rw [process_part_str]
  | wildcard w => rfl

theorem likeStep_foldl : ∀ (parts : List PatPart) (a : List Char) (b : Bool),
    parts.foldl likeStep (a, b) =
      (a ++ (parts.map (fun p => (process_part p).1)).flatten,
       b || parts.any (fun p => (process_part p).2))
  | [], a, b => by simp
  | p :: ps, a, b => by
      rw [List.foldl_cons, likeStep, likeStep_foldl ps]
      simp [List.append_assoc, Bool.or_assoc]

theorem likeFold_spec (parts : List PatPart) :
    likeFold parts = ((parts.map partContribSpec).flatten, parts.any partEscapesB) := by
  unfold likeFold
  rw [likeStep_foldl,
    show (fun p => (process_part p).1) = partContribSpec from funext process_part_fst,
    show (fun p => (process_part p).2) = partEscapesB from funext process_part_snd]
  simp only [List.nil_append, Bool.false_or]

/-!
## Decimal rendering lemmas
-/

theorem natToCharsAux_eq : ∀ (fuel n : Nat) (acc : List Char), n < 10 ^ (fuel + 1) →
    natToCharsAux (fuel + 1) n acc = natDigitsWF n ++ acc
  | 0, n, acc, h => by
      have hn : n < 10 := by simpa using h
      rw [natToCharsAux, if_pos hn, natDigitsWF, dif_pos hn]
      rfl
  | fuel + 1, n, acc, h => by
      by_cases hn : n < 10
      · rw [natToCharsAux, if_pos hn, natDigitsWF, dif_pos hn]
        rfl
      · rw [natToCharsAux, if_neg hn]
        have hdiv : n / 10 < 10 ^ (fuel + 1) := by
          rw [Nat.div_lt_iff_lt_mul (by norm_num)]
          calc n < 10 ^ (fuel + 2) := h
            _ = 10 ^ (fuel + 1) * 10 := by ring
        rw [natToCharsAux_eq fuel (n / 10) _ hdiv]
        conv_rhs => rw [natDigitsWF]
        rw [dif_neg hn]
        simp [List.append_assoc]

theorem natDecimal_eq (n : Nat) : natDecimal n = natDigitsWF n := by
  have h : n < 10 ^ (n + 1) :=
    Nat.lt_of_lt_of_le (Nat.lt_pow_self (by norm_num) n)
      (Nat.pow_le_pow_right (by norm_num) (Nat.le_succ n))
  rw [natDecimal, natToCharsAux_eq n n [] h, List.append_nil]

theorem digitsVal_append_digit (l : List Char) (c : Char) :
    digitsVal (l ++ [c]) = 10 * digitsVal l + (c.toNat - 48) := by
  unfold digitsVal
  rw [List.foldl_append]
  rfl

theorem digitChar_toNat : ∀ d, d < 10 → (digitChar d).toNat - 48 = d := by decide

theorem digitChar_ne_dash : ∀ d, d < 10 → digitChar d ≠ '-' := by decide

theorem digitChar_ne_qmark : ∀ d, d < 10 → digitChar d ≠ '?' := by decide

theorem digitsVal_natDigitsWF (n : Nat) : digitsVal (natDigitsWF n) = n := by
  rw [natDigitsWF]
  split
  · rename_i h
    show digitsVal [digitChar n] = n
    unfold digitsVal
    simpa using digitChar_toNat n h
  · rename_i h
    rw [digitsVal_append_digit, digitsVal_natDigitsWF (n / 10),
      digitChar_toNat _ (Nat.mod_lt _ (by norm_num))]
    omega
termination_by n
decreasing_by exact Nat.div_lt_self (by omega) (by norm_num)

theorem natDigitsWF_charset (n : Nat) :
    ∀ c ∈ natDigitsWF n, ∃ d, d < 10 ∧ c = digitChar d := by
  rw [natDigitsWF]
  split
  · rename_i h
    intro c hc
    simp at hc
    exact ⟨n, h, hc⟩
  · rename_i h
    intro c hc
    rw [List.mem_append] at hc
    rcases hc with hc | hc
    · exact natDigitsWF_charset (n / 10) c hc
    · simp at hc
      exact ⟨n % 10, Nat.mod_lt _ (by norm_num), hc⟩
termination_by n
decreasing_by exact Nat.div_lt_self (by omega) (by norm_num)

theorem natDigitsWF_head (n : Nat) :
    ∃ d rest, d < 10 ∧ natDigitsWF n = digitChar d :: rest := by
  rw [natDigitsWF]
  split
  · rename_i h
    exact ⟨n, [], h, rfl⟩
  · rename_i h
    obtain ⟨d, rest, hd, heq⟩ := natDigitsWF_head (n / 10)
    exact ⟨d, rest ++ [digitChar (n % 10)], hd, by rw [heq]; rfl⟩
termination_by n
decreasing_by exact Nat.div_lt_self (by omega) (by norm_num)

theorem intCharsVal_intDecimal (n : Int) : intCharsVal (intDecimal n) = n := by
  cases n with
  | ofNat m =>
      rw [intDecimal, natDecimal_eq]
      obtain ⟨d, rest, hd, heq⟩ := natDigitsWF_head m
      rw [heq]
      unfold intCharsVal
      split
      · rename_i rest' heq'
        have hdash : digitChar d = '-' := by
          have := congrArg (fun l => l.headD ' ') heq'
          simpa using this
        exact absurd hdash (digitChar_ne_dash d hd)
      · rw [← heq, digitsVal_natDigitsWF]
        rfl
  | negSucc m =>
      show -(digitsVal (natDecimal (m + 1)) : Int) = Int.negSucc m
      rw [natDecimal_eq, digitsVal_natDigitsWF]
      simp [Int.negSucc_eq]

theorem natDecimal_no_qmark (n : Nat) : '?' ∉ natDecimal n := by
  rw [natDecimal_eq]
  intro hmem
  obtain ⟨d, hd, hc⟩ := natDigitsWF_charset n '?' hmem
  exact digitChar_ne_qmark d hd hc.symm

theorem intDecimal_no_qmark (n : Int) : '?' ∉ intDecimal n := by
  cases n with
  | ofNat m => exact natDecimal_no_qmark m
  | negSucc m =>
      intro h
      rw [intDecimal] at h
      rcases List.mem_cons.mp h with h | h
      · exact absurd h (by decide)
      · exact natDecimal_no_qmark _ h

theorem intDecimal_head (n : Int) :
    ∃ c rest, intDecimal n = c :: rest ∧
      (c = '-' ∨ ∃ d, d < 10 ∧ c = digitChar d) := by
  cases n with
  | ofNat m =>
      obtain ⟨d, rest, hd, heq⟩ := natDigitsWF_head m
      exact ⟨digitChar d, rest, by rw [intDecimal, natDecimal_eq, heq],
        Or.inr ⟨d, hd, rfl⟩⟩
  | negSucc m => exact ⟨'-', natDecimal (m + 1), rfl, Or.inl rfl⟩

theorem true_str_ne_intDecimal (n : Int) : "True".data ≠ intDecimal n := by
  intro heq
  obtain ⟨c, rest, hrepr, hc⟩ := intDecimal_head n
  rw [hrepr] at heq
  have hT : 'T' = c := by
    have := congrArg (fun l => l.headD ' ') heq
    simpa using this
  rcases hc with hc | ⟨d, hd, hc⟩
  · rw [← hT] at hc
    exact absurd hc (by decide)
  · rw [← hT] at hc
    have hne : ∀ d, d < 10 → digitChar d ≠ 'T' := by decide
    exact hne d hd hc.symm

/-!
## Absence of stray placeholder characters
-/

theorem mem_of_mem_dropWhile {p : α → Bool} :
    ∀ {l : List α} {a : α}, a ∈ l.dropWhile p → a ∈ l
  | [], _, h => h
  | y :: ys, a, h => by
      rw [List.dropWhile_cons] at h
      split at h
      · exact List.mem_cons_of_mem y (mem_of_mem_dropWhile h)
      · exact h

theorem mem_of_mem_stripChunks {l : List Chunk} {x : Chunk}
    (h : x ∈ stripChunks l) : x ∈ l := by
  unfold stripChunks at h
  rw [List.mem_reverse] at h
  have h1 := mem_of_mem_dropWhile h
  rw [List.mem_reverse] at h1
  exact mem_of_mem_dropWhile h1

theorem mem_chunkConcat {a b : List Chunk} {x : Chunk} (h : x ∈ chunkConcat a b) :
    x ∈ a ∨ x = Chunk.ch ' ' ∨ x ∈ b := by
  unfold chunkConcat at h
  split at h
  · exact Or.inr (Or.inr (mem_of_mem_stripChunks h))
  · rw [List.mem_append] at h
    rcases h with h | h
    · exact Or.inl h
    · rcases List.mem_cons.mp h with h | h
      · exact Or.inr (Or.inl h)
      · exact Or.inr (Or.inr (mem_of_mem_stripChunks h))

theorem ch_mem_map {s : List Char} {c : Char} (h : Chunk.ch c ∈ s.map Chunk.ch) :
    c ∈ s := by
  rcases List.mem_map.mp h with ⟨c', hc', hch⟩
  injection hch with h1
  exact h1 ▸ hc'

theorem not_mem_joinSep {a : α} {sep : List α} {xs : List (List α)}
    (hsep : a ∉ sep) (hxs : ∀ x ∈ xs, a ∉ x) : a ∉ joinSep sep xs := by
  intro h
  rcases mem_joinSep h with h | ⟨x, hx, ha⟩
  · exact hsep h
  · exact hxs x hx ha

theorem eqPair_no_qmark {c : List Char} (h : noQs c = true) : '?' ∉ eqPair c := by
  unfold eqPair
  intro hmem
  simp only [List.mem_append, or_assoc] at hmem
  rcases hmem with hm | hm | hm | hm
  · revert hm; decide
  · exact noQs_not_mem h hm
  · revert hm; decide
  · exact noQs_not_mem h hm

theorem columnList_no_qmark {cols : List (List Char)}
    (h : cols.all noQs = true) : '?' ∉ upsertColumnList cols := by
  apply not_mem_joinSep (by decide)
  intro x hx
  exact noQs_not_mem (List.all_eq_true.mp h x hx)

theorem onCondition_no_qmark {onCols : List (List Char)}
    (h : onCols.all noQs = true) : '?' ∉ upsertOnCondition onCols := by
  apply not_mem_joinSep (by decide)
  intro x hx
  rcases List.mem_map.mp hx with ⟨c, hc, rfl⟩
  exact eqPair_no_qmark (List.all_eq_true.mp h c hc)

theorem updateCommand_no_qmark {onCols cols : List (List Char)}
    (h : cols.all noQs = true) : '?' ∉ upsertUpdateCommand onCols cols := by
  apply not_mem_joinSep (by decide)
  intro x hx
  rcases List.mem_map.mp hx with ⟨c, hc, rfl⟩
  have hmem : c ∈ cols := (updateColumns_mem_iff.mp hc).1
  exact eqPair_no_qmark (List.all_eq_true.mp h c hmem)

theorem insertColumnList_no_qmark {cols : List (List Char)}
    (h : cols.all noQs = true) : '?' ∉ upsertInsertColumnList cols := by
  apply not_mem_joinSep (by decide)
  intro x hx
  rcases List.mem_map.mp hx with ⟨c, hc, rfl⟩
  intro hmem
  rcases List.mem_append.mp hmem with hm | hm
  · revert hm; decide
  · exact noQs_not_mem (List.all_eq_true.mp h c hc) hm

theorem valueRowsChunks_no_qmark (rows : List (List PyVal)) :
    Chunk.ch '?' ∉ valueRowsChunks rows := by
  intro h
  rcases mem_joinSep h with h | ⟨x, hx, hmem⟩
  · simp at h
  · rcases List.mem_map.mp hx with ⟨row, _, rfl⟩
    unfold rowChunks at hmem
    rcases List.mem_cons.mp hmem with h | h
    · simp at h
    · rcases List.mem_append.mp h with h | h
      · rcases mem_joinSep h with h | ⟨y, hy, hm⟩
        · simp at h
        · rcases List.mem_map.mp hy with ⟨v, _, rfl⟩
          simp at hm
      · simp at h

theorem upsertChunks_no_qmark {t : List Char} {onCols cols : List (List Char)}
    {rows : List (List PyVal)} (hq : noQs t = true)
    (hon : onCols.all noQs = true) (hcols : cols.all noQs = true) :
    Chunk.ch '?' ∉ upsertChunks t onCols cols rows := by
  unfold upsertChunks
  intro h
  rcases List.mem_append.mp h with h | h
  · rcases List.mem_append.mp h with h | h
    · have hm0 := ch_mem_map h
      simp only [List.mem_append, or_assoc] at hm0
      rcases hm0 with hm | hm | hm
      · revert hm; decide
      · exact noQs_not_mem hq hm
      · revert hm; decide
    · exact valueRowsChunks_no_qmark rows h
  · have hm0 := ch_mem_map h
    simp only [List.mem_append, or_assoc] at hm0
    rcases hm0 with hm | hm | hm | hm | hm | hm | hm | hm | hm | hm | hm
    · revert hm; decide
    · exact columnList_no_qmark hcols hm
    · revert hm; decide
    · exact onCondition_no_qmark hon hm
    · revert hm; decide
    · exact updateCommand_no_qmark hcols hm
    · revert hm; decide
    · exact columnList_no_qmark hcols hm
    · revert hm; decide
    · exact insertColumnList_no_qmark hcols hm
    · revert hm; decide

mutual
/-- When no developer-supplied raw text contains the placeholder token, no
literal `?` character occurs in the chunk stream. -/
theorem Frag.chunks_no_qmark : ∀ f : Frag, f.valid = true → f.noQ = true →
    Chunk.ch '?' ∉ f.chunks
  | .trusted s, _, hq => by
      rw [Frag.chunks]
      intro hmem
      exact noQs_not_mem (by simpa [Frag.noQ] using hq) (ch_mem_map hmem)
  | .comp parts, hv, hq => by
      rw [Frag.chunks]
      exact FragList.chunksFold_no_qmark parts [] (by simp)
        (by simpa [Frag.valid] using hv) (by simpa [Frag.noQ] using hq)
  | .intLit v, hv, _ => by
      rw [Frag.chunks]
      intro hmem
      have hc := ch_mem_map hmem
      cases v with
      | int n => exact intDecimal_no_qmark n hc
      | bool b => cases b <;> revert hc <;> decide
      | str s => simp [Frag.valid, isinstance_int] at hv
  | .param v, _, _ => by
      rw [Frag.chunks]
      simp
  | .whitelisted s wl, _, hq => by
      rw [Frag.chunks]
      intro hmem
      exact noQs_not_mem (by simpa [Frag.noQ] using hq) (ch_mem_map hmem)
  | .pattern parts, _, _ => by
      rw [Frag.chunks]
      unfold likeChunks
      intro hmem
      rcases List.mem_cons.mp hmem with h | h
      · simp at h
      · have := ch_mem_map h
        split at this
        · revert this; decide
        · simp at this
  | .upsert t onCols cols rows, _, hq => by
      rw [Frag.chunks]
      have hq' : noQs t = true ∧ onCols.all noQs = true ∧ cols.all noQs = true := by
        simpa [Frag.noQ, Bool.and_eq_true, and_assoc] using hq
      exact upsertChunks_no_qmark hq'.1 hq'.2.1 hq'.2.2

/-- The composite fold introduces only space characters. -/
theorem FragList.chunksFold_no_qmark : ∀ (fs : FragList) (acc : List Chunk),
    Chunk.ch '?' ∉ acc → fs.validAll = true → fs.noQAll = true →
    Chunk.ch '?' ∉ FragList.chunksFold acc fs
  | .nil, acc, hacc, _, _ => by
      rw [FragList.chunksFold]
      exact hacc
  | .cons f fs, acc, hacc, hv, hq => by
      rw [FragList.chunksFold]
      have hv' : f.valid = true ∧ fs.validAll = true := by
        simpa [FragList.validAll, Bool.and_eq_true] using hv
      have hq' : f.noQ = true ∧ fs.noQAll = true := by
        simpa [FragList.noQAll, Bool.and_eq_true] using hq
      apply FragList.chunksFold_no_qmark fs _ _ hv'.2 hq'.2
      intro hmem
      rcases mem_chunkConcat hmem with h | h | h
      · exact hacc h
      · simp at h
      · exact Frag.chunks_no_qmark f hv'.1 hq'.1 h
end

/-- Counting placeholders in the projected template: every `hole` projects to
one `?`, and no literal `?` remains. -/
theorem count_proj_eq_length_holes :
    ∀ {l : List Chunk}, Chunk.ch '?' ∉ l →
      (proj l).count '?' = (holes l).length
  | [], _ => rfl
  | Chunk.ch c :: xs, h => by
      have hc : c ≠ '?' := by
        intro hc
        exact h (hc ▸ List.mem_cons_self _ _)
      rw [show proj (Chunk.ch c :: xs) = c :: proj xs from rfl, holes_cons_ch,
        List.count_cons]
      rw [count_proj_eq_length_holes (fun hm => h (List.mem_cons_of_mem _ hm))]
      simp [hc]
  | Chunk.hole v :: xs, h => by
      rw [show proj (Chunk.hole v :: xs) = '?' :: proj xs from rfl, holes_cons_hole,
        List.count_cons]
      rw [count_proj_eq_length_holes (fun hm => h (List.mem_cons_of_mem _ hm))]
      simp

/-!
## Placeholder counting in the upsert statement
-/

theorem count_upsertValueRow (cols : List (List Char)) :
    (upsertValueRow cols).count '?' = cols.length := by
  unfold upsertValueRow
  rw [List.count_cons, List.count_append,
    count_joinSep '?' [','] (by decide), List.map_replicate]
  simp [List.sum_replicate]

theorem count_upsertValueRows (cols : List (List Char)) (rows : List (List PyVal)) :
    (upsertValueRows cols rows).count '?' = rows.length * cols.length := by
  unfold upsertValueRows
  rw [count_joinSep '?' [','] (by decide), List.map_replicate,
    count_upsertValueRow]
  simp [List.sum_replicate]

theorem flatten_length_of_uniform {rows : List (List PyVal)} {n : Nat}
    (h : ∀ r ∈ rows, r.length = n) :
    rows.flatten.length = rows.length * n := by
  rw [List.length_flatten, rows_map_length_replicate h]
  simp [List.sum_replicate]

/-!
## Row-dict lemmas
-/

theorem dictLookup_head (k : List Char) (v : PyVal) (rest : RowDict) :
    dictLookup k ((k, v) :: rest) = v := by
  unfold dictLookup
  rw [List.find?_cons_of_pos _ (by simp)]

theorem dictLookup_cons_ne {c k : List Char} (h : c ≠ k) (v : PyVal)
    (rest : RowDict) : dictLookup c ((k, v) :: rest) = dictLookup c rest := by
  unfold dictLookup
  rw [List.find?_cons_of_neg _ (by simp [Ne.symm h])]

theorem lookup_keys_eq_values : ∀ (d : RowDict), (dictKeys d).Nodup →
    (dictKeys d).map (fun c => dictLookup c d) = dictValues d
  | [], _ => rfl
  | (k, v) :: rest, h => by
      rw [show dictKeys ((k, v) :: rest) = k :: dictKeys rest from rfl] at h ⊢
      rw [show dictValues ((k, v) :: rest) = v :: dictValues rest from rfl]
      have hk : k ∉ dictKeys rest := (List.nodup_cons.mp h).1
      have hrest : (dictKeys rest).Nodup := (List.nodup_cons.mp h).2
      rw [List.map_cons, dictLookup_head]
      congr 1
      rw [List.map_congr_left (fun c hc =>
        dictLookup_cons_ne (fun hck : c = k => hk (hck ▸ hc)) v rest)]
      exact lookup_keys_eq_values rest hrest

/-!
## Claims
-/

/-- C1 (amended): for every fragment tree accepted by the public
constructors in which no developer-supplied raw string (trusted text, the
chosen whitelisted string, upsert table or column names) contains `?`, the
rendered pair is the projection of the chunk stream — so the i-th
placeholder, left to right, stands exactly at the position of the i-th
parameter — and the number of `?` occurrences in the template equals the
length of the parameter list. -/
theorem c1_placeholder_param_correspondence (f : Frag)
    (hv : f.valid = true) (hq : f.noQ = true) :
    f.build_ = (proj f.chunks, holes f.chunks) ∧
    (f.build_).1.count '?' = (f.build_).2.length := by
  have h := Frag.build_eq_chunks f hv
  refine ⟨h, ?_⟩
  rw [h]
  exact count_proj_eq_length_holes (Frag.chunks_no_qmark f hv hq)

/-- C1 counterexample: the composite `SafeSql("?")` is built from the public
constructors, renders the template `?` and an empty parameter list, so the
placeholder count (1) differs from the parameter count (0). -/
theorem c1_counterexample :
    (Frag.comp (.cons (.trusted "?".data) .nil)).valid = true ∧
    ((Frag.comp (.cons (.trusted "?".data) .nil)).build_).1.count '?' ≠
      ((Frag.comp (.cons (.trusted "?".data) .nil)).build_).2.length := by
  exact ⟨by decide, by decide⟩

/-- C1 witness: the composite of the repository's own test suite satisfies
both hypotheses and hence the correspondence. -/
theorem c1_witness :
    exampleTree.valid = true ∧ exampleTree.noQ = true ∧
    (exampleTree.build_ = (proj exampleTree.chunks, holes exampleTree.chunks) ∧
      (exampleTree.build_).1.count '?' = (exampleTree.build_).2.length) :=
  ⟨by decide, by decide,
    c1_placeholder_param_correspondence exampleTree (by decide) (by decide)⟩

/-- C2: for every successfully constructed pattern, the single bound
parameter is the in-order concatenation of the elements' contributions,
where every wildcard-significant character of a plain-string element is
prefixed by the escape character exactly once (`escSpec`) and wildcard
tokens contribute their literal character unescaped. -/
theorem c2_pattern_escaping (parts : List PatPart) (hne : parts ≠ []) :
    SafeSqlLikePattern_mk parts = .ok (.pattern parts) ∧
    (SafeSqlLikePattern_build parts).2 =
      [PyVal.str ((parts.map partContribSpec).flatten)] := by
  constructor
  · unfold SafeSqlLikePattern_mk
    rw [if_neg (by simpa using hne)]
  · simp only [SafeSqlLikePattern_build, likeFold_spec]

/-- C2 witness: the escaping property at the test suite's pattern. -/
theorem c2_witness :
    ([.str "100%".data, .wildcard .UNDERSCORE, .str "foo[bar".data] : List PatPart) ≠ [] ∧
    (SafeSqlLikePattern_build
        [.str "100%".data, .wildcard .UNDERSCORE, .str "foo[bar".data]).2 =
      [PyVal.str (([.str "100%".data, .wildcard .UNDERSCORE, .str "foo[bar".data].map
          partContribSpec).flatten)] :=
  ⟨by decide,
    (c2_pattern_escaping
      [.str "100%".data, .wildcard .UNDERSCORE, .str "foo[bar".data]
      (by decide)).2⟩

/-- C3: the template of a successfully constructed pattern is the
placeholder followed by the `ESCAPE` clause exactly when some plain-string
element needed escaping, and the two spec examples render as stated. -/
theorem c3_escape_clause_iff (parts : List PatPart) (hne : parts ≠ []) :
    (SafeSqlLikePattern_build parts).1 =
      '?' :: (if parts.any partEscapesB = true then " ESCAPE '['".data else []) ∧
    SafeSqlLikePattern_build
        [.str "100%".data, .wildcard .UNDERSCORE, .str "foo[bar".data] =
      ("? ESCAPE '['".data, [PyVal.str "100[%_foo[[bar".data]) ∧
    SafeSqlLikePattern_build [.str "abc".data, .wildcard .PERCENT] =
      ("?".data, [PyVal.str "abc%".data]) := by
  refine ⟨?_, by decide, by decide⟩
  simp only [SafeSqlLikePattern_build, likeFold_spec]
  by_cases h : parts.any partEscapesB = true
  · rw [if_pos h, if_pos h]
    decide
  · rw [if_neg h, if_neg h]
    rfl

/-- C3 witness: the generic clause characterisation at the escaped example. -/
theorem c3_witness :
    ([.str "100%".data, .wildcard .UNDERSCORE, .str "foo[bar".data] : List PatPart) ≠ [] ∧
    (SafeSqlLikePattern_build
        [.str "100%".data, .wildcard .UNDERSCORE, .str "foo[bar".data]).1 =
      '?' :: (if ([.str "100%".data, .wildcard .UNDERSCORE,
          .str "foo[bar".data] : List PatPart).any partEscapesB = true
        then " ESCAPE '['".data else []) :=
  ⟨by decide,
    (c3_escape_clause_iff
      [.str "100%".data, .wildcard .UNDERSCORE, .str "foo[bar".data]
      (by decide)).1⟩

/-- C4: for every successfully constructed upsert with `r` rows, `c` columns
and `k` key columns: the parameter list is the rows flattened row-major with
length `r*c`; each `VALUES` tuple holds `c` placeholders and the whole
`VALUES` list `r*c`; the `ON` clause is the `AND`-conjunction of exactly the
key equalities; the `UPDATE SET` list ranges over exactly the `c-k` non-key
columns in original order; and the chunk stream ties the placeholders
positionally to the flattened rows. -/
theorem c4_upsert_statement (t : List Char) (onCols cols : List (List Char))
    (rows : List (List PyVal)) (h1 : rows ≠ [])
    (h2 : ∀ r ∈ rows, r.length = cols.length)
    (h4 : onCols.Nodup) (h5 : cols.Nodup) (h6 : ∀ c ∈ onCols, c ∈ cols) :
    (SafeSqlUpsertRows_build t onCols cols rows).2 = rows.flatten ∧
    rows.flatten.length = rows.length * cols.length ∧
    (upsertValueRow cols).count '?' = cols.length ∧
    (upsertValueRows cols rows).count '?' = rows.length * cols.length ∧
    upsertOnCondition onCols = joinSep " AND ".data (onCols.map eqPair) ∧
    (upsertUpdateColumns onCols cols).Sublist cols ∧
    (∀ c, c ∈ upsertUpdateColumns onCols cols ↔ c ∈ cols ∧ c ∉ onCols) ∧
    (upsertUpdateColumns onCols cols).length = cols.length - onCols.length ∧
    proj (upsertChunks t onCols cols rows) = upsertSql t onCols cols rows ∧
    holes (upsertChunks t onCols cols rows) = rows.flatten :=
  ⟨rfl, flatten_length_of_uniform h2, count_upsertValueRow cols,
    count_upsertValueRows cols rows, rfl, updateColumns_sublist onCols cols,
    fun _ => updateColumns_mem_iff, updateColumns_length h4 h5 h6,
    proj_upsertChunks h2, holes_upsertChunks t onCols cols rows⟩

/-- C4 witness: the 2-key/2-value/2-row upsert of the test suite, plus the
exact `MERGE` text the test expects. -/
theorem c4_witness :
    (exUpsertRows ≠ [] ∧ (∀ r ∈ exUpsertRows, r.length = exUpsertColumns.length) ∧
      exUpsertOnColumns.Nodup ∧ exUpsertColumns.Nodup ∧
      (∀ c ∈ exUpsertOnColumns, c ∈ exUpsertColumns)) ∧
    (upsertValueRows exUpsertColumns exUpsertRows).count '?' = 2 * 4 ∧
    (upsertUpdateColumns exUpsertOnColumns exUpsertColumns).length = 4 - 2 ∧
    SafeSqlUpsertRows_build "my_table".data exUpsertOnColumns exUpsertColumns
        exUpsertRows =
      ("\nMERGE INTO my_table WITH (HOLDLOCK) AS target\nUSING (\n    VALUES\n        (?,?,?,?),(?,?,?,?)\n) AS source (id1,id2,v1,v2)\n    ON target.id1 = source.id1 AND target.id2 = source.id2\nWHEN MATCHED THEN\n    UPDATE SET \n        target.v1 = source.v1, target.v2 = source.v2\nWHEN NOT MATCHED BY TARGET THEN\n    INSERT (id1,id2,v1,v2)\n    VALUES (source.id1,source.id2,source.v1,source.v2);\n".data,
        [.int 1, .int 10, .str "a1".data, .str "a2".data,
          .int 2, .int 20, .str "b1".data, .str "b2".data]) :=
  ⟨⟨by decide, by decide, by decide, by decide, by decide⟩,
    (c4_upsert_statement "my_table".data exUpsertOnColumns exUpsertColumns
      exUpsertRows (by decide) (by decide) (by decide) (by decide)
      (by decide)).2.2.2.1,
    (c4_upsert_statement "my_table".data exUpsertOnColumns exUpsertColumns
      exUpsertRows (by decide) (by decide) (by decide) (by decide)
      (by decide)).2.2.2.2.2.2.2.1,
    by decide⟩

/-- C5: the top-level build guard fails with the capacity error exactly when
the rendered parameter list is longer than 2100, and otherwise returns the
rendered pair unchanged. -/
theorem c5_build_guard (f : Frag) :
    (SafeSqlBuilder_build f =
        .error (.valueError "SqlServer max. nr. of parameters exceeded".data) ↔
      2100 < (f.build_).2.length) ∧
    ((f.build_).2.length ≤ 2100 → SafeSqlBuilder_build f = .ok f.build_) := by
  have hguard : SafeSqlBuilder_build f =
      if (f.build_).2.length > 2100 then
        .error (.valueError "SqlServer max. nr. of parameters exceeded".data)
      else .ok f.build_ := rfl
  rw [hguard]
  by_cases h : (f.build_).2.length > 2100
  · rw [if_pos h]
    exact ⟨⟨fun _ => h, fun _ => rfl⟩, fun hle => absurd h (by omega)⟩
  · rw [if_neg h]
    refine ⟨⟨fun heq => ?_, fun hlt => absurd hlt h⟩, fun _ => rfl⟩
    exact absurd heq (by simp)

/-- C5 witness: a composite whose single sub-fragment renders 2101
parameters trips the guard, while 2100 parameters pass through unchanged. -/
theorem c5_witness :
    2100 < (overLimitFrag.build_).2.length ∧
    SafeSqlBuilder_build overLimitFrag =
      .error (.valueError "SqlServer max. nr. of parameters exceeded".data) ∧
    (atLimitFrag.build_).2.length ≤ 2100 ∧
    SafeSqlBuilder_build atLimitFrag = .ok atLimitFrag.build_ := by
  have hov : (overLimitFrag.build_).2 =
      (List.replicate 2101 ([PyVal.int 0])).flatten := by
    show ((Frag.comp _).build_).2 = _
    rw [Frag.build_, buildFold_split]
    simp [FragList.toList, Frag.build_, SafeSqlUpsertRows_build]
  have hat : (atLimitFrag.build_).2 =
      (List.replicate 2100 ([PyVal.int 0])).flatten := by
    show ((Frag.comp _).build_).2 = _
    rw [Frag.build_, buildFold_split]
    simp [FragList.toList, Frag.build_, SafeSqlUpsertRows_build]
  have huov : ∀ r ∈ List.replicate 2101 ([PyVal.int 0]), r.length = 1 :=
    fun r hr => by rw [List.eq_of_mem_replicate hr]; rfl
  have huat : ∀ r ∈ List.replicate 2100 ([PyVal.int 0]), r.length = 1 :=
    fun r hr => by rw [List.eq_of_mem_replicate hr]; rfl
  have hlov : (overLimitFrag.build_).2.length = 2101 := by
    rw [hov, flatten_length_of_uniform huov]
    simp
  have hlat : (atLimitFrag.build_).2.length = 2100 := by
    rw [hat, flatten_length_of_uniform huat]
    simp
  exact ⟨by omega, (c5_build_guard overLimitFrag).1.mpr (by omega),
    by omega, (c5_build_guard atLimitFrag).2 (by omega)⟩

/-- C6: a composite folds left to right: each element's text is stripped;
elements stripping to empty before the first non-empty contribution add
nothing; every later element is joined with exactly one separating space;
parameters are concatenated in order; trusted text contributes itself
verbatim; and the empty composite renders to empty text and no parameters. -/
theorem c6_composite_fold (parts : FragList) :
    (Frag.comp parts).build_ =
      (specJoin (parts.toList.map (fun p => strip (p.build_).1)),
        (parts.toList.map (fun p => (p.build_).2)).flatten) ∧
    (∀ s, (Frag.trusted s).build_ = (s, [])) ∧
    (Frag.comp .nil).build_ = ([], []) := by
  refine ⟨?_, fun s => rfl, rfl⟩
  rw [Frag.build_, buildFold_split]
  rw [show (([], []) : List Char × List PyVal).1 = [] from rfl,
    show (([], []) : List Char × List PyVal).2 = [] from rfl,
    foldl_safely_nil, List.map_map, List.nil_append]
  rfl

/-- C7: constructing the whitelist leaf with a non-member always fails with
a value error; with a member it always succeeds and renders to exactly that
string with zero parameters. -/
theorem c7_whitelist (s : List Char) (wl : List (List Char)) :
    (s ∉ wl → SafeSqlWhitelisted_mk s wl =
      .error (.valueError ("string '".data ++ s ++ "' not in whitelist".data))) ∧
    (s ∈ wl → SafeSqlWhitelisted_mk s wl = .ok (.whitelisted s wl) ∧
      (Frag.whitelisted s wl).build_ = (s, [])) := by
  constructor
  · intro h
    unfold SafeSqlWhitelisted_mk
    rw [if_pos h]
  · intro h
    refine ⟨?_, rfl⟩
    unfold SafeSqlWhitelisted_mk
    rw [if_neg (not_not_intro h)]

/-- C7 witness: the test suite's whitelist, with a member and with a
non-member. -/
theorem c7_witness :
    "users".data ∈ ["users".data, "orders".data] ∧
    SafeSqlWhitelisted_mk "users".data ["users".data, "orders".data] =
      .ok (.whitelisted "users".data ["users".data, "orders".data]) ∧
    (Frag.whitelisted "users".data ["users".data, "orders".data]).build_ =
      ("users".data, []) ∧
    "invalid".data ∉ ["users".data, "orders".data] ∧
    SafeSqlWhitelisted_mk "invalid".data ["users".data, "orders".data] =
      .error (.valueError
        ("string '".data ++ "invalid".data ++ "' not in whitelist".data)) :=
  ⟨by decide,
    ((c7_whitelist "users".data ["users".data, "orders".data]).2 (by decide)).1,
    ((c7_whitelist "users".data ["users".data, "orders".data]).2 (by decide)).2,
    by decide,
    (c7_whitelist "invalid".data ["users".data, "orders".data]).1 (by decide)⟩

/-- C8 (amended): when the row mappings all share the first mapping's key
list — same keys in the same insertion order, keys unique within each
mapping — `from_row_dicts` builds exactly what the claim's direct
construction (columns from the first mapping, rows extracted in column
order) builds, so the two entry points render identical results. -/
theorem c8_from_row_dicts_same_key_sequence (t : List Char)
    (onCols : List (List Char)) (ds : List RowDict) (hne : ds ≠ [])
    (hnd : ∀ d ∈ ds, (dictKeys d).Nodup)
    (hk : ∀ d ∈ ds, dictKeys d = dictKeys (ds.headD [])) :
    SafeSqlUpsertRows_from_row_dicts t onCols ds = claimFromRowDicts t onCols ds := by
  cases ds with
  | nil => exact absurd rfl hne
  | cons d0 rest =>
      show SafeSqlUpsertRows_validate t onCols (dictKeys d0)
          ((d0 :: rest).map dictValues) =
        SafeSqlUpsertRows_validate t onCols (dictKeys d0)
          ((d0 :: rest).map (fun rd => (dictKeys d0).map (fun c => dictLookup c rd)))
      congr 1
      apply List.map_congr_left
      intro d hd
      have hkd : dictKeys d = dictKeys d0 := by simpa using hk d hd
      rw [← hkd]
      exact (lookup_keys_eq_values d (hnd d hd)).symm

/-- C8 counterexample: two mappings with the same key set but different
insertion orders: `from_row_dicts` takes each mapping's own value order, the
claim's direct construction reorders by the first mapping's columns, and
the rendered parameter lists differ. -/
theorem c8_counterexample :
    ((dictKeys c8Dict1).all (fun k => (dictKeys c8Dict2).contains k) = true) ∧
    ((dictKeys c8Dict2).all (fun k => (dictKeys c8Dict1).contains k) = true) ∧
    exceptOk (SafeSqlUpsertRows_from_row_dicts "t".data ["a".data]
      [c8Dict1, c8Dict2]) = true ∧
    exceptOk (claimFromRowDicts "t".data ["a".data] [c8Dict1, c8Dict2]) = true ∧
    buildOfExcept (SafeSqlUpsertRows_from_row_dicts "t".data ["a".data]
        [c8Dict1, c8Dict2]) ≠
      buildOfExcept (claimFromRowDicts "t".data ["a".data] [c8Dict1, c8Dict2]) :=
  ⟨by decide, by decide, by decide, by decide, by decide⟩

/-- C8 witness: the test suite's row dicts share their key sequence, so the
two entry points agree there. -/
theorem c8_witness :
    ([[("id1".data, PyVal.int 1), ("id2".data, PyVal.int 10),
        ("v1".data, PyVal.str "a1".data), ("v2".data, PyVal.str "a2".data)],
      [("id1".data, PyVal.int 2), ("id2".data, PyVal.int 20),
        ("v1".data, PyVal.str "b1".data), ("v2".data, PyVal.str "b2".data)]] :
      List RowDict) ≠ [] ∧
    SafeSqlUpsertRows_from_row_dicts "my_table".data exUpsertOnColumns
        [[("id1".data, PyVal.int 1), ("id2".data, PyVal.int 10),
          ("v1".data, PyVal.str "a1".data), ("v2".data, PyVal.str "a2".data)],
         [("id1".data, PyVal.int 2), ("id2".data, PyVal.int 20),
          ("v1".data, PyVal.str "b1".data), ("v2".data, PyVal.str "b2".data)]] =
      claimFromRowDicts "my_table".data exUpsertOnColumns
        [[("id1".data, PyVal.int 1), ("id2".data, PyVal.int 10),
          ("v1".data, PyVal.str "a1".data), ("v2".data, PyVal.str "a2".data)],
         [("id1".data, PyVal.int 2), ("id2".data, PyVal.int 20),
          ("v1".data, PyVal.str "b1".data), ("v2".data, PyVal.str "b2".data)]] :=
  ⟨by decide,
    c8_from_row_dicts_same_key_sequence "my_table".data exUpsertOnColumns _
      (by decide) (by decide) (by decide)⟩

/-- C9 (amended): construction succeeds exactly on the values accepted by
Python's `isinstance(value, int)` — integers and booleans, `bool` being a
subclass of `int` — while a genuine non-integer type is rejected with the
type error.  A constructed leaf renders `str(value)` with zero parameters:
for an integer value that is its decimal string form (verified by parsing
the digits back), for a boolean it is `True`/`False`. -/
theorem c9_int_literal (v : PyVal) :
    (SafeSqlInt_mk v = .ok (.intLit v) ↔ isinstance_int v = true) ∧
    (isinstance_int v = false →
      SafeSqlInt_mk v = .error (.typeError "value must be int".data)) ∧
    (Frag.intLit v).build_ = (pyStr v, []) ∧
    (∀ n : Int, v = PyVal.int n →
      pyStr v = intDecimal n ∧ intCharsVal (intDecimal n) = n) ∧
    pyStr (PyVal.bool true) = "True".data ∧
    pyStr (PyVal.bool false) = "False".data := by
  refine ⟨⟨?_, ?_⟩, ?_, rfl, ?_, rfl, rfl⟩
  · intro h
    cases hiv : isinstance_int v with
    | true => rfl
    | false =>
        unfold SafeSqlInt_mk at h
        rw [if_pos hiv] at h
        exact Except.noConfusion h
  · intro hv
    unfold SafeSqlInt_mk
    rw [if_neg (by simp [hv])]
  · intro hv
    unfold SafeSqlInt_mk
    rw [if_pos hv]
  · rintro n rfl
    exact ⟨rfl, intCharsVal_intDecimal n⟩

/-- C9 counterexample: Python's `bool` is a subclass of `int`, so
`SafeSqlInt(True)` passes the `isinstance(value, int)` guard even though a
boolean is not an integer value, and it renders the text `True` — the
decimal string form of no integer. -/
theorem c9_counterexample :
    (∀ n : Int, PyVal.bool true ≠ PyVal.int n) ∧
    SafeSqlInt_mk (PyVal.bool true) = .ok (.intLit (PyVal.bool true)) ∧
    (Frag.intLit (PyVal.bool true)).build_ = ("True".data, []) ∧
    (∀ n : Int, ((Frag.intLit (PyVal.bool true)).build_).1 ≠ intDecimal n) :=
  ⟨fun n h => PyVal.noConfusion h, rfl, rfl,
    fun n => true_str_ne_intDecimal n⟩

/-- C9 witness: an accepted integer renders its decimal form, a string is
rejected with the type error, and `True` is accepted. -/
theorem c9_witness :
    SafeSqlInt_mk (.int 10) = .ok (.intLit (.int 10)) ∧
    (Frag.intLit (.int 10)).build_ = (pyStr (.int 10), []) ∧
    pyStr (PyVal.int 10) = intDecimal 10 ∧ intCharsVal (intDecimal 10) = 10 ∧
    isinstance_int (.str "x".data) = false ∧
    SafeSqlInt_mk (.str "x".data) = .error (.typeError "value must be int".data) ∧
    SafeSqlInt_mk (.bool true) = .ok (.intLit (.bool true)) ∧
    intDecimal 10 = "10".data ∧ intDecimal (-5) = "-5".data :=
  ⟨(c9_int_literal (.int 10)).1.mpr (by decide),
    (c9_int_literal (.int 10)).2.2.1,
    ((c9_int_literal (.int 10)).2.2.2.1 10 rfl).1,
    ((c9_int_literal (.int 10)).2.2.2.1 10 rfl).2,
    by decide,
    (c9_int_literal (.str "x".data)).2.1 (by decide),
    (c9_int_literal (.bool true)).1.mpr (by decide),
    by decide, by decide⟩

/-- C10: an upsert whose key columns contain every column passes the
duplicate and subset checks (construction succeeds), its update-column list
is empty, and the statement still carries the `WHEN MATCHED` branch whose
`UPDATE SET` is immediately followed by the `WHEN NOT MATCHED` branch with
no assignment in between. -/
theorem c10_all_key_columns (t : List Char) (onCols cols : List (List Char))
    (rows : List (List PyVal)) (h1 : rows ≠ [])
    (h2 : ∀ r ∈ rows, r.length = cols.length) (h3 : cols ≠ [])
    (h4 : onCols.Nodup) (h5 : cols.Nodup) (h6 : ∀ c ∈ onCols, c ∈ cols)
    (h7 : ∀ c ∈ cols, c ∈ onCols) :
    SafeSqlUpsertRows_validate t onCols cols rows =
      .ok (.upsert t onCols cols rows) ∧
    upsertUpdateColumns onCols cols = [] ∧
    ∃ s1 s2, upsertSql t onCols cols rows =
      s1 ++ "\nWHEN MATCHED THEN\n    UPDATE SET \n        ".data
        ++ "\nWHEN NOT MATCHED BY TARGET THEN".data ++ s2 := by
  have hnil := updateColumns_nil h7
  refine ⟨validate_ok_of h1 h2 h3 h4 h5 h6, hnil, ?_⟩
  refine ⟨"\nMERGE INTO ".data ++ t
      ++ " WITH (HOLDLOCK) AS target\nUSING (\n    VALUES\n        ".data
      ++ upsertValueRows cols rows ++ "\n) AS source (".data
      ++ upsertColumnList cols ++ ")\n    ON ".data ++ upsertOnCondition onCols,
    "\n    INSERT (".data ++ upsertColumnList cols ++ ")\n    VALUES (".data
      ++ upsertInsertColumnList cols ++ ");\n".data, ?_⟩
  unfold upsertSql upsertUpdateCommand
  rw [hnil]
  rw [show ("\nWHEN NOT MATCHED BY TARGET THEN\n    INSERT (".data : List Char)
      = "\nWHEN NOT MATCHED BY TARGET THEN".data ++ "\n    INSERT (".data
    from by decide]
  simp [joinSep, List.append_assoc]

/-- C10 witness: a one-column upsert keyed on its only column. -/
theorem c10_witness :
    SafeSqlUpsertRows_validate "t".data ["id".data] ["id".data] [[PyVal.int 1]] =
      .ok (.upsert "t".data ["id".data] ["id".data] [[PyVal.int 1]]) ∧
    upsertUpdateColumns ["id".data] ["id".data] = [] ∧
    ∃ s1 s2, upsertSql "t".data ["id".data] ["id".data] [[PyVal.int 1]] =
      s1 ++ "\nWHEN MATCHED THEN\n    UPDATE SET \n        ".data
        ++ "\nWHEN NOT MATCHED BY TARGET THEN".data ++ s2 :=
  c10_all_key_columns "t".data ["id".data] ["id".data] [[PyVal.int 1]]
    (by decide) (by decide) (by decide) (by decide) (by decide) (by decide)
    (by decide)
